import Mathlib

set_option maxHeartbeats 1000000
set_option maxRecDepth 4000

/-!
Shallow embedding of the rargs field-reference template engine
(`src/main.rs` of triarius/rargs).

Rust machine integers (`i32` indices, `usize` lengths) are modelled as
`Int`/`Nat`; the engine is only defined for group counts far below `2^31`,
so wrap-around of `as i32` casts is outside the modelled range.
Fallible Rust operations (slice indexing that can panic, `expect` on
integer parsing) are modelled with `Except Unit`: `Except.error ()` is a
panic, `Except.ok` a normal return.

The third-party `regex` crate is not part of this repository; the result
of running the compiled pattern over one input line enters the embedding
as data (`MatchData`, one entry per regex match, carrying the positional
capture slots in index order and the participating named captures in
declaration order), exactly the information `RegexContext::builder`
consumes from `captures_iter`.
-/

namespace Rargs

/-- Result of a Rust computation that can panic: `Except.error ()` models a
panic (aborted computation), `Except.ok` a normal return. -/
abbrev PRes (α : Type) := Except Unit α

deriving instance DecidableEq for Except

/-- Whether a computation returned normally (did not panic). -/
def isOkP {α : Type} : PRes α → Bool
  | .ok _ => true
  | .error _ => false

/-- The five shapes of index reference, from `enum Range` in `main.rs`
(`Single`, `Both`, `LeftInf`, `RightInf`, `Inf`). Indices are the
mathematical values of the Rust `i32` fields. -/
inductive Range where
  | Single (n : Int)
  | Both (l r : Int)
  | LeftInf (r : Int)
  | RightInf (l : Int)
  | Inf
deriving DecidableEq, Repr

/-- Data of one regex match over the input line, as consumed by
`RegexContext::builder`: `groups` is `caps.iter().skip(1)` (one entry per
capture-group slot in index order, `none` when the group did not
participate), `named` lists the participating named groups of this match
in pattern-declaration order (the builder iterates the declared names and
skips the ones without a value). -/
structure MatchData where
  groups : List (Option String)
  named : List (String × String)
deriving DecidableEq, Repr

/-- The per-line capture context, from `struct RegexContext`: a name map
(the `HashMap`), the flat ordered capture sequence, and the default
separator. The `HashMap` is modelled as a lookup function. -/
structure RegexContext where
  map : String → Option String
  groups : List String
  default_sep : String

/-- One `HashMap::insert`: later inserts shadow earlier ones. -/
def insertKV (m : String → Option String) (k v : String) : String → Option String :=
  fun q => if q = k then some v else m q

/-- A sequence of `HashMap::insert`s, in list order. -/
def insertAll (m : String → Option String) (l : List (String × String)) :
    String → Option String :=
  l.foldl (fun m kv => insertKV m kv.1 kv.2) m

/-- The two seed inserts of `RegexContext::builder`: `""` and `"0"` bound
to the whole line. -/
def initMap (line : String) : String → Option String :=
  insertKV (insertKV (fun _ => none) "" line) "0" line

/-- One iteration of the builder's `captures_iter` loop: append this
match's participating positional captures to the flat sequence and insert
its participating named captures into the map. -/
def builderStep (acc : List String × (String → Option String)) (md : MatchData) :
    List String × (String → Option String) :=
  (acc.1 ++ md.groups.filterMap id, insertAll acc.2 md.named)

/-- The builder loop of `RegexContext::builder`: seed the map, then fold
the matches left to right. -/
def buildContext (line : String) (ms : List MatchData) : RegexContext :=
  let st := ms.foldl builderStep ([], initMap line)
  { map := st.2, groups := st.1, default_sep := " " }

/-- Builder method `default_sep` (replaces the separator). -/
def RegexContext.with_default_sep (ctx : RegexContext) (sep : String) : RegexContext :=
  { ctx with default_sep := sep }

/-- Builder method `put` (inserts a pseudo-field, overriding any
same-named capture). -/
def RegexContext.put (ctx : RegexContext) (k v : String) : RegexContext :=
  { ctx with map := insertKV ctx.map k v }

/-- `translate_neg_index`: negative indices count from the end
(`idx + len + 1`), then clamp below at zero; the Rust `as usize` cast of
the clamped non-negative value is `Int.toNat`. -/
def RegexContext.translate_neg_index (ctx : RegexContext) (idx : Int) : Nat :=
  let len : Int := ctx.groups.length
  let i := if idx < 0 then idx + len + 1 else idx
  (max 0 i).toNat

/-- Rust slice `&l[a..b]`: defined when `a ≤ b ≤ l.length`, otherwise the
indexing operation panics (`none`). -/
def rustSlice (l : List String) (a b : Nat) : Option (List String) :=
  if a ≤ b ∧ b ≤ l.length then some ((l.drop a).take (b - a)) else none

/-- `get_by_name`: plain map lookup. -/
def get_by_name (ctx : RegexContext) (group_name : String) : Option String :=
  ctx.map group_name

/-- Nesting depth of the degrade cascade, used as the termination measure
for `get_by_range` / `get_by_split_range`. -/
def Range.rank : Range → Nat
  | .Both _ _ => 2
  | .LeftInf _ => 1
  | .RightInf _ => 1
  | _ => 0

/-- `get_by_range` of `impl Context for RegexContext`: joined range
resolution with the degrade cascade (`Both` degrades to
`LeftInf`/`RightInf`/`Single`, the open shapes degrade to `Inf`).
Rust's `sep.unwrap_or(&self.default_sep)` is `Option.getD`, `Vec::join`
is `String.intercalate`, and slice indexing panics through `rustSlice`. -/
def get_by_range (ctx : RegexContext) : Range → Option String → PRes (Option String)
  | .Single num, _sep =>
    let num := ctx.translate_neg_index num
    if num = 0 then
      .ok (ctx.map "")
    else if num > ctx.groups.length then
      .ok none
    else
      match ctx.groups.get? (num - 1) with
      | some s => .ok (some s)
      | none => .error ()
  | .Both l r, sep =>
    let left := ctx.translate_neg_index l
    let right := ctx.translate_neg_index r
    if left = 0 then
      get_by_range ctx (.LeftInf (right : Int)) sep
    else if right > ctx.groups.length then
      get_by_range ctx (.RightInf (left : Int)) sep
    else if left = right then
      get_by_range ctx (.Single (left : Int)) sep
    else
      match rustSlice ctx.groups (left - 1) right with
      | some xs => .ok (some (String.intercalate (sep.getD ctx.default_sep) xs))
      | none => .error ()
  | .LeftInf r, sep =>
    let right := ctx.translate_neg_index r
    if right > ctx.groups.length then
      get_by_range ctx .Inf sep
    else
      match rustSlice ctx.groups 0 right with
      | some xs => .ok (some (String.intercalate (sep.getD ctx.default_sep) xs))
      | none => .error ()
  | .RightInf l, sep =>
    let left := ctx.translate_neg_index l
    if left = 0 then
      get_by_range ctx .Inf sep
    else
      match rustSlice ctx.groups (left - 1) ctx.groups.length with
      | some xs => .ok (some (String.intercalate (sep.getD ctx.default_sep) xs))
      | none => .error ()
  | .Inf, sep =>
    .ok (some (String.intercalate (sep.getD ctx.default_sep) ctx.groups))
termination_by r _ => r.rank
decreasing_by all_goals simp [Range.rank]

/-- `get_by_split_range`: split resolution, the same structural recursion
as `get_by_range` but returning the unjoined sub-sequence. -/
def get_by_split_range (ctx : RegexContext) : Range → PRes (List String)
  | .Single num =>
    let num := ctx.translate_neg_index num
    if num = 0 then
      .ok (match ctx.map "" with | some c => [c] | none => [])
    else if num > ctx.groups.length then
      .ok []
    else
      match ctx.groups.get? (num - 1) with
      | some s => .ok [s]
      | none => .error ()
  | .Both l r =>
    let left := ctx.translate_neg_index l
    let right := ctx.translate_neg_index r
    if left = 0 then
      get_by_split_range ctx (.LeftInf (right : Int))
    else if right > ctx.groups.length then
      get_by_split_range ctx (.RightInf (left : Int))
    else if left = right then
      get_by_split_range ctx (.Single (left : Int))
    else
      match rustSlice ctx.groups (left - 1) right with
      | some xs => .ok xs
      | none => .error ()
  | .LeftInf r =>
    let right := ctx.translate_neg_index r
    if right > ctx.groups.length then
      get_by_split_range ctx .Inf
    else
      match rustSlice ctx.groups 0 right with
      | some xs => .ok xs
      | none => .error ()
  | .RightInf l =>
    let left := ctx.translate_neg_index l
    if left = 0 then
      get_by_split_range ctx .Inf
    else
      match rustSlice ctx.groups (left - 1) ctx.groups.length with
      | some xs => .ok xs
      | none => .error ()
  | .Inf =>
    .ok ctx.groups
termination_by r => r.rank
decreasing_by all_goals simp [Range.rank]

/-- The `'{'` character (written via its code point). -/
def lbrace : Char := Char.ofNat 123

/-- The `'}'` character (written via its code point). -/
def rbrace : Char := Char.ofNat 125

/-- The regex ASCII class `[[:space:]]`: space, tab, newline, vertical
tab, form feed, carriage return. -/
def isSpc (c : Char) : Bool := c.toNat = 32 ∨ (9 ≤ c.toNat ∧ c.toNat ≤ 13)

/-- The regex ASCII class `[[:word:]]`: ASCII alphanumerics and
underscore. -/
def isWordC (c : Char) : Bool := c.isAlphanum ∨ c = '_'

/-- ASCII decimal digit, the `\d` class restricted to ASCII (the engine
accepts Unicode decimal digits too; tokens containing non-ASCII digits are
outside the modelled range, see `c8_spec`). -/
def isDigitC (c : Char) : Bool := c.isDigit

/-- Numeric value of an ASCII digit run. -/
def digitsVal (cs : List Char) : Nat :=
  cs.foldl (fun a c => a * 10 + (c.toNat - 48)) 0

/-- Rust `str::parse::<i32>()` on the strings these call sites feed it
(shape `-?\d*`): succeeds on a non-empty digit run with optional sign
whose value fits in `i32`, fails otherwise (empty, lone `-`, overflow). -/
def rustParseI32 (cs : List Char) : Option Int :=
  let (neg, ds) :=
    match cs with
    | c :: rest => if c = '-' then (true, rest) else (false, cs)
    | [] => (false, cs)
  if ds ≠ [] ∧ ds.all isDigitC then
    let v : Int := if neg then -(digitsVal ds : Int) else (digitsVal ds : Int)
    if -2147483648 ≤ v ∧ v ≤ 2147483647 then some v else none
  else none

/-- Match of `FIELD_SINGLE`'s interior `[[:space:]]*(-?\d+)[[:space:]]*`
against the token interior: returns the `num` capture. -/
def matchSingle (mid : List Char) : Option (List Char) :=
  let t := mid.dropWhile isSpc
  let (sign, t2) :=
    match t with
    | c :: r => if c = '-' then ([c], r) else (([] : List Char), t)
    | [] => (([] : List Char), t)
  let ds := t2.takeWhile isDigitC
  let rest := t2.dropWhile isDigitC
  if ds ≠ [] ∧ rest.all isSpc then some (sign ++ ds) else none

/-- Match of `FIELD_NAMED`'s interior
`[[:space:]]*([[:word:]]*)[[:space:]]*`: returns the `name` capture
(possibly empty). -/
def matchNamed (mid : List Char) : Option (List Char) :=
  let t := mid.dropWhile isSpc
  let w := t.takeWhile isWordC
  let rest := t.dropWhile isWordC
  if rest.all isSpc then some w else none

/-- Maximal-munch of one range bound `-?\d*` (equivalent to the engine's
greedy matching with backtracking, since a shortened bound would leave a
sign or digit where a dot or colon is required). -/
def takeBound : List Char → List Char × List Char
  | c :: r =>
    if c = '-' then (c :: r.takeWhile isDigitC, r.dropWhile isDigitC)
    else ((c :: r).takeWhile isDigitC, (c :: r).dropWhile isDigitC)
  | [] => ([], [])

/-- Match of `FIELD_RANGE`'s interior `(-?\d*)?\.\.(-?\d*)?(?::(.*))?`:
two bounds around a two-dot separator, optionally followed by `:` and a
separator (the `.` class excludes newline). Returns the `left`, `right`
and optional `sep` captures. -/
def matchRange (mid : List Char) : Option (List Char × List Char × Option (List Char)) :=
  let (l, r1) := takeBound mid
  match r1 with
  | '.' :: '.' :: r2 =>
    let (rb, r3) := takeBound r2
    match r3 with
    | [] => some (l, rb, none)
    | ':' :: sepCs => if sepCs.all (fun c => c ≠ '\n') then some (l, rb, some sepCs) else none
    | _ => none
  | _ => none

/-- Match of `FIELD_SPLIT_RANGE`'s interior `(-?\d*)?\.\.\.(-?\d*)?`:
two bounds around a three-dot separator, nothing else. -/
def matchSplit (mid : List Char) : Option (List Char × List Char) :=
  let (l, r1) := takeBound mid
  match r1 with
  | '.' :: '.' :: '.' :: r2 =>
    let (rb, r3) := takeBound r2
    if r3 = [] then some (l, rb) else none
  | _ => none

/-- `enum ArgFragment`. -/
inductive ArgFragment where
  | Literal (s : String)
  | NamedGroup (s : String)
  | RangeGroup (r : Range) (sep : Option String)
  | SplitRangeGroup (r : Range)
deriving DecidableEq, Repr

/-- The bound defaulting of `ArgFragment::parse`:
`parse().unwrap_or(dflt)` applied to a captured bound string. -/
def boundVal (cs : List Char) (dflt : Int) : Int :=
  (rustParseI32 cs).getD dflt

/-- The `(opt_left, opt_right)` dispatch of `ArgFragment::parse` for the
two-dot syntax. In the regex engine an optional group wrapping a pattern
that can match the empty string always participates (which is why the
source applies `unwrap_or` defaults), so both captures are present and
only the `Both` arm is reachable; the other arms are kept to mirror the
source's `match`. -/
def mkJoinRange (l rb : List Char) (sep : Option String) : ArgFragment :=
  let opt_left : Option Int := some (boundVal l 1)
  let opt_right : Option Int := some (boundVal rb (-1))
  match opt_left, opt_right with
  | none, none => .RangeGroup .Inf sep
  | none, some right => .RangeGroup (.LeftInf right) sep
  | some left, none => .RangeGroup (.RightInf left) sep
  | some left, some right => .RangeGroup (.Both left right) sep

/-- Same dispatch for the three-dot syntax. -/
def mkSplitRange (l rb : List Char) : ArgFragment :=
  let opt_left : Option Int := some (boundVal l 1)
  let opt_right : Option Int := some (boundVal rb (-1))
  match opt_left, opt_right with
  | none, none => .SplitRangeGroup .Inf
  | none, some right => .SplitRangeGroup (.LeftInf right)
  | some left, none => .SplitRangeGroup (.RightInf left)
  | some left, some right => .SplitRangeGroup (.Both left right)

/-- Interior of a scanner token: the call sites of `ArgFragment::parse`
only feed it `CMD_REGEX` matches, which are a left brace, brace-free
interior characters, and a right brace; for such strings the anchored
field regexes reduce to their interior patterns. -/
def extractMid (cs : List Char) : Option (List Char) :=
  match cs with
  | c :: rest =>
    if c = lbrace ∧ rest ≠ [] ∧ rest.getLast? = some rbrace ∧
        rest.dropLast.all (fun d => d ≠ lbrace ∧ d ≠ rbrace) then
      some rest.dropLast
    else none
  | [] => none

/-- `ArgFragment::parse`: try `FIELD_SINGLE`, `FIELD_NAMED`,
`FIELD_RANGE`, `FIELD_SPLIT_RANGE` in order; anything else stays a
literal. The `expect("field is not a number")` on an out-of-`i32`-range
bare integer is a panic. -/
def ArgFragment.parseFrag (field_string : String) : PRes ArgFragment :=
  match extractMid field_string.data with
  | none => .ok (.Literal field_string)
  | some mid =>
    match matchSingle mid with
    | some numCs =>
      match rustParseI32 numCs with
      | some n => .ok (.RangeGroup (.Single n) none)
      | none => .error ()
    | none =>
      match matchNamed mid with
      | some w => .ok (.NamedGroup (String.mk w))
      | none =>
        match matchRange mid with
        | some (l, rb, sep) => .ok (mkJoinRange l rb (sep.map String.mk))
        | none =>
          match matchSplit mid with
          | some (l, rb) => .ok (mkSplitRange l rb)
          | none => .ok (.Literal field_string)

/-- Scanner state for the `CMD_REGEX.find_iter` loop of
`ArgTemplate::from`: emitted parts (reversed), current literal characters
(reversed), and the characters seen since a pending left brace (reversed)
when one is open. -/
structure ScanState where
  parts : List (String ⊕ String)
  lit : List Char
  buf : Option (List Char)

/-- One scanner step. `CMD_REGEX` is `\{[[:space:]]*[^{}]*[[:space:]]*\}`,
whose matches are exactly a left brace, the run up to the next brace, and
that brace when it is a right brace; `find_iter` yields them left to
right, non-overlapping. A left brace reopens the candidate; a right brace
with an open candidate emits the literal gap and the token. -/
def scanStep (st : ScanState) (c : Char) : ScanState :=
  if c = lbrace then
    match st.buf with
    | none => { st with buf := some [] }
    | some b => { st with lit := b ++ (lbrace :: st.lit), buf := some [] }
  else if c = rbrace then
    match st.buf with
    | none => { st with lit := c :: st.lit }
    | some b =>
      { parts := Sum.inr (String.mk (lbrace :: (b.reverse ++ [rbrace]))) ::
          Sum.inl (String.mk st.lit.reverse) :: st.parts,
        lit := [], buf := none }
  else
    match st.buf with
    | none => { st with lit := c :: st.lit }
    | some b => { st with buf := some (c :: b) }

/-- The pending literal characters of a scanner state (reversed): an
unclosed candidate brace is literal text. -/
def reconLit (st : ScanState) : List Char :=
  match st.buf with
  | none => st.lit
  | some b => b ++ (lbrace :: st.lit)

/-- The token scan of `ArgTemplate::from`: alternating literal gaps
(`Sum.inl`, possibly empty) and field tokens (`Sum.inr`), ending with the
final literal tail. -/
def scanParts (s : String) : List (String ⊕ String) :=
  let st := s.data.foldl scanStep ⟨[], [], none⟩
  (Sum.inl (String.mk (reconLit st).reverse) :: st.parts).reverse

/-- Whether the field scanner finds at least one `{...}` token. -/
def hasFieldTok (s : String) : Bool :=
  (scanParts s).any Sum.isRight

/-- `struct ArgTemplate`. -/
structure ArgTemplate where
  fragments : List ArgFragment
deriving DecidableEq, Repr

/-- `impl From<&str> for ArgTemplate`: scan, then classify every token
(pushing the literal gap before each token and the final tail). -/
def ArgTemplate.fromStr (arg : String) : PRes ArgTemplate := do
  let fragments ← (scanParts arg).mapM (fun p =>
    match p with
    | Sum.inl l => pure (ArgFragment.Literal l)
    | Sum.inr tok => ArgFragment.parseFrag tok)
  pure ⟨fragments⟩

/-- `enum Join` (the sub-fields of a join combination). -/
inductive Join where
  | Literal (s : String)
  | NamedGroup (s : String)
  | RangeGroup (r : Range) (sep : Option String)
deriving DecidableEq, Repr

/-- `struct Split(Range)`. -/
structure Split where
  r : Range
deriving DecidableEq, Repr

/-- `enum Combination`. -/
inductive Combination where
  | Join (joins : List Join)
  | Split (s : Split)
deriving DecidableEq, Repr

/-- The fold body of `group_combinations`: pop the last combination,
compute the replacement tail, and append it back. -/
def groupStep (acc : List Combination) (e : ArgFragment) : List Combination :=
  match acc.getLast? with
  | none =>
    match e with
    | .Literal s => if s = "" then [] else [Combination.Join [Join.Literal s]]
    | .NamedGroup s => [Combination.Join [Join.NamedGroup s]]
    | .RangeGroup r sp => [Combination.Join [Join.RangeGroup r sp]]
    | .SplitRangeGroup r => [Combination.Split ⟨r⟩]
  | some last =>
    acc.dropLast ++
      match last, e with
      | last, .SplitRangeGroup r => [last, Combination.Split ⟨r⟩]
      | Combination.Join joins, .Literal s => [Combination.Join (joins ++ [Join.Literal s])]
      | Combination.Join joins, .NamedGroup s => [Combination.Join (joins ++ [Join.NamedGroup s])]
      | Combination.Join joins, .RangeGroup r sp => [Combination.Join (joins ++ [Join.RangeGroup r sp])]
      | last, .Literal s => if s = "" then [last] else [last, Combination.Join [Join.Literal s]]
      | last, .NamedGroup s => [last, Combination.Join [Join.NamedGroup s]]
      | last, .RangeGroup r sp => [last, Combination.Join [Join.RangeGroup r sp]]

/-- `group_combinations`: fold the fragment sequence into join/split
combinations. -/
def group_combinations (fragments : List ArgFragment) : List Combination :=
  fragments.foldl groupStep []

/-- One element of the inner `flat_map` of `combine_with_context`: a
literal contributes itself, an unresolved named or ranged sub-field
contributes nothing (`map_or_else(Vec::new, ...)`). -/
def resolveJoinPart (ctx : RegexContext) : Join → PRes (List String)
  | .Literal l => .ok [l]
  | .NamedGroup name =>
    .ok (match get_by_name ctx name with | some c => [c] | none => [])
  | .RangeGroup r sep =>
    (get_by_range ctx r sep).map (fun o => match o with | some c => [c] | none => [])

/-- Resolution of one combination: a join concatenates its pieces into
exactly one string (`collect::<String>()`), a split fans out. -/
def resolveCombination (ctx : RegexContext) : Combination → PRes (List String)
  | .Join joins => do
    let pieces ← joins.mapM (resolveJoinPart ctx)
    pure [String.join pieces.flatten]
  | .Split sp => get_by_split_range ctx sp.r

/-- `combine_with_context`: resolve every combination and concatenate the
results in order (`flat_map`). -/
def combine_with_context (ctx : RegexContext) (combinations : List Combination) :
    PRes (List String) := do
  let rs ← combinations.mapM (resolveCombination ctx)
  pure rs.flatten

/-- `ArgTemplate::apply_context`. -/
def ArgTemplate.apply_context (t : ArgTemplate) (ctx : RegexContext) : PRes (List String) :=
  combine_with_context ctx (group_combinations t.fragments)

/-- The context chain built in `Rargs::get_args`: builder, default
separator, then the two line-number pseudo-fields (`LINENUM` and `LN`,
inserted last, so they shadow same-named captures). -/
def lineContext (line default_sep : String) (ms : List MatchData) (line_num : Int) :
    RegexContext :=
  (((buildContext line ms).with_default_sep default_sep).put "LINENUM"
      (toString line_num)).put "LN" (toString line_num)

/-- `Rargs::get_args`: build the line context and expand every template,
concatenating the per-template argument lists (`flat_map`). -/
def get_args (args : List ArgTemplate) (default_sep line : String)
    (ms : List MatchData) (line_num : Int) : PRes (List String) := do
  let context := lineContext line default_sep ms line_num
  let results ← args.mapM (fun a => a.apply_context context)
  pure results.flatten

/-- The line-number counter of `main`: starts at `startnum - 1` and is
incremented once before each line is processed, so the k-th line (1-based)
sees `startnum - 1 + k`. -/
def lineNumAt (startnum : Int) : Nat → Int
  | 0 => startnum - 1
  | k + 1 => lineNumAt startnum k + 1

/-! Helper definitions used to state the claims. -/

/-- The flat ordered sequence of every participating capture of every
match, in encounter order: the positional addressing space. -/
def allCaptures (ms : List MatchData) : List String :=
  (ms.map (fun md => md.groups.filterMap id)).flatten

/-- All named-capture writes over the line, in write (iteration) order. -/
def namedWrites (ms : List MatchData) : List (String × String) :=
  (ms.map (fun md => md.named)).flatten

/-- The last value written for a key in a write sequence (none when the
key is never written). -/
def lastAssoc (k : String) (l : List (String × String)) : Option String :=
  l.foldl (fun acc kv => if kv.1 = k then some kv.2 else acc) none

/-- First-of: keep an already-present value, fall back otherwise. -/
def orDefault (o d : Option String) : Option String :=
  match o with
  | some v => some v
  | none => d

/-- Which `Range` shape a value is. -/
def Range.isSingle : Range → Bool
  | .Single _ => true
  | _ => false

/-- The exact no-panic condition of the degrade cascade: `Both` panics
when its translated left bound exceeds `min(translated right, group
count) + 1`, `RightInf` when its translated left bound exceeds
`group count + 1`; the other shapes never panic. -/
def noPanicRange (ctx : RegexContext) : Range → Bool
  | .Both l r =>
    ctx.translate_neg_index l ≤ min (ctx.translate_neg_index r) ctx.groups.length + 1
  | .RightInf l => ctx.translate_neg_index l ≤ ctx.groups.length + 1
  | _ => true

/-! Concrete instances used by counterexamples and witnesses. The
`MatchData` lists record what the regex engine (an external crate)
produces for the stated pattern and line. -/

/-- A context with three captured groups, as produced for example by the
pattern `(\w)(\w)(\w)` on the line `abc`. -/
def c1ctx : RegexContext := buildContext "abc" [⟨[some "a", some "b", some "c"], []⟩]

/-- A context with no captured groups (a pattern without capture groups
matching the line `x`). -/
def c1wctx : RegexContext := buildContext "x" []

/-- A context with no captured groups over the line `x`. -/
def c2ctx : RegexContext := buildContext "x" []

/-- A context with two captured groups over the line `ab`. -/
def c2wctx : RegexContext := buildContext "ab" [⟨[some "a", some "b"], []⟩]

/-- One match with one positional capture that is also named `g`. -/
def c4ms : List MatchData := [⟨[some "a"], [("g", "a")]⟩]

/-- The captures of `(?P<year>\d{4})-(\d{2})-(\d{2})` on `2018-10-21`:
one match, positional captures `2018`, `10`, `21`, named capture
`year = 2018`. -/
def c5matches : List MatchData := [⟨[some "2018", some "10", some "21"], [("year", "2018")]⟩]

/-! Basic lemmas about index translation, slicing and the builder. -/

theorem translate_coe (ctx : RegexContext) (n : Nat) :
    ctx.translate_neg_index (n : Int) = n := by
  simp only [RegexContext.translate_neg_index]
  split
  · omega
  · omega

theorem translate_neg_one (ctx : RegexContext) :
    ctx.translate_neg_index (-1) = ctx.groups.length := by
  simp only [RegexContext.translate_neg_index]
  split
  · omega
  · omega

theorem rustSlice_some {l : List String} {a b : Nat} (h : a ≤ b) (hb : b ≤ l.length) :
    rustSlice l a b = some ((l.drop a).take (b - a)) := by
  simp [rustSlice, h, hb]

theorem rustSlice_full (l : List String) : rustSlice l 0 l.length = some l := by
  simp [rustSlice]

theorem lastAssoc_foldl (k : String) (l : List (String × String)) (a : Option String) :
    l.foldl (fun acc kv => if kv.1 = k then some kv.2 else acc) a =
      orDefault (lastAssoc k l) a := by
  induction l generalizing a with
  | nil => cases a <;> rfl
  | cons kv l ih =>
    have hc : lastAssoc k (kv :: l) =
        orDefault (lastAssoc k l) (if kv.1 = k then some kv.2 else none) := by
      rw [lastAssoc, List.foldl_cons, ih]
    rw [List.foldl_cons, ih, hc]
    cases hl : lastAssoc k l <;> split_ifs <;> simp [orDefault]

theorem insertAll_lookup (l : List (String × String)) (m0 : String → Option String)
    (k : String) :
    insertAll m0 l k = orDefault (lastAssoc k l) (m0 k) := by
  induction l generalizing m0 with
  | nil => rfl
  | cons kv l ih =>
    have hc : lastAssoc k (kv :: l) =
        orDefault (lastAssoc k l) (if kv.1 = k then some kv.2 else none) := by
      rw [lastAssoc, List.foldl_cons, lastAssoc_foldl]
    rw [insertAll, List.foldl_cons]
    rw [show (List.foldl (fun m kv => insertKV m kv.1 kv.2) (insertKV m0 kv.1 kv.2) l) =
        insertAll (insertKV m0 kv.1 kv.2) l from rfl]
    rw [ih, hc, insertKV]
    cases hl : lastAssoc k l <;> by_cases hk : k = kv.1 <;>
      simp [orDefault, hk, eq_comm]

theorem lastAssoc_none {k : String} {l : List (String × String)}
    (h : ∀ kv ∈ l, kv.1 ≠ k) : lastAssoc k l = none := by
  induction l with
  | nil => rfl
  | cons kv l ih =>
    have hc : lastAssoc k (kv :: l) =
        orDefault (lastAssoc k l) (if kv.1 = k then some kv.2 else none) := by
      rw [lastAssoc, List.foldl_cons, lastAssoc_foldl]
    rw [hc, ih (fun x hx => h x (List.mem_cons_of_mem kv hx)),
      if_neg (h kv (List.mem_cons_self kv l))]
    rfl

theorem builder_foldl (ms : List MatchData) (st0 : List String × (String → Option String)) :
    ms.foldl builderStep st0 =
      (st0.1 ++ allCaptures ms, insertAll st0.2 (namedWrites ms)) := by
  induction ms generalizing st0 with
  | nil => simp [allCaptures, namedWrites, insertAll]
  | cons md ms ih =>
    rw [List.foldl_cons, ih]
    have h1 : allCaptures (md :: ms) = md.groups.filterMap id ++ allCaptures ms := by
      simp [allCaptures]
    have h2 : namedWrites (md :: ms) = md.named ++ namedWrites ms := by
      simp [namedWrites]
    rw [h1, h2, builderStep]
    refine Prod.ext ?_ ?_
    · simp [List.append_assoc]
    · simp [insertAll, List.foldl_append]

theorem buildContext_groups (line : String) (ms : List MatchData) :
    (buildContext line ms).groups = allCaptures ms := by
  simp [buildContext, builder_foldl]

theorem buildContext_map (line : String) (ms : List MatchData) (k : String) :
    (buildContext line ms).map k =
      orDefault (lastAssoc k (namedWrites ms)) (initMap line k) := by
  simp [buildContext, builder_foldl, insertAll_lookup]

theorem initMap_other {line k : String} (h0 : k ≠ "") (h1 : k ≠ "0") :
    initMap line k = none := by
  simp [initMap, insertKV, h0, h1]

theorem orDefault_none (o : Option String) : orDefault o none = o := by
  cases o <;> rfl

/-! Completion (no-panic) lemmas for joined resolution. -/

theorem gbr_inf_isOk (ctx : RegexContext) (sep : Option String) :
    isOkP (get_by_range ctx .Inf sep) = true := by
  rw [get_by_range]
  rfl

theorem gbr_single_isOk (ctx : RegexContext) (n : Int) (sep : Option String) :
    isOkP (get_by_range ctx (.Single n) sep) = true := by
  rw [get_by_range]
  split_ifs with h0 h1
  · rfl
  · rfl
  · rcases hg : ctx.groups.get? (ctx.translate_neg_index n - 1) with _ | s
    · rw [List.get?_eq_none] at hg
      omega
    · rfl

theorem gbr_leftInf_isOk (ctx : RegexContext) (r : Int) (sep : Option String) :
    isOkP (get_by_range ctx (.LeftInf r) sep) = true := by
  rw [get_by_range]
  split_ifs with h1
  · exact gbr_inf_isOk ctx sep
  · rw [rustSlice_some (Nat.zero_le _) (by omega)]
    rfl

theorem gbr_rightInf_isOk (ctx : RegexContext) (l : Int) (sep : Option String)
    (h : ctx.translate_neg_index l ≤ ctx.groups.length + 1) :
    isOkP (get_by_range ctx (.RightInf l) sep) = true := by
  rw [get_by_range]
  split_ifs with h0
  · exact gbr_inf_isOk ctx sep
  · rw [rustSlice_some (by omega) (le_refl _)]
    rfl

theorem gbr_both_isOk (ctx : RegexContext) (l r : Int) (sep : Option String)
    (h : ctx.translate_neg_index l ≤ min (ctx.translate_neg_index r) ctx.groups.length + 1) :
    isOkP (get_by_range ctx (.Both l r) sep) = true := by
  rw [get_by_range]
  split_ifs with h0 h1 h2
  · exact gbr_leftInf_isOk ctx _ sep
  · apply gbr_rightInf_isOk
    rw [translate_coe]
    omega
  · exact gbr_single_isOk ctx _ sep
  · rw [rustSlice_some (by omega) (by omega)]
    rfl

theorem noPanic_gbr_isOk (ctx : RegexContext) (r : Range) (sep : Option String)
    (h : noPanicRange ctx r = true) : isOkP (get_by_range ctx r sep) = true := by
  cases r with
  | Single n => exact gbr_single_isOk ctx n sep
  | Both l r => exact gbr_both_isOk ctx l r sep (by simpa [noPanicRange] using h)
  | LeftInf r => exact gbr_leftInf_isOk ctx r sep
  | RightInf l => exact gbr_rightInf_isOk ctx l sep (by simpa [noPanicRange] using h)
  | Inf => exact gbr_inf_isOk ctx sep

/-! Completion (no-panic) lemmas for split resolution. -/

theorem gbs_inf_isOk (ctx : RegexContext) :
    isOkP (get_by_split_range ctx .Inf) = true := by
  rw [get_by_split_range]
  rfl

theorem gbs_single_isOk (ctx : RegexContext) (n : Int) :
    isOkP (get_by_split_range ctx (.Single n)) = true := by
  rw [get_by_split_range]
  split_ifs with h0 h1
  · rfl
  · rfl
  · rcases hg : ctx.groups.get? (ctx.translate_neg_index n - 1) with _ | s
    · rw [List.get?_eq_none] at hg
      omega
    · rfl

theorem gbs_leftInf_isOk (ctx : RegexContext) (r : Int) :
    isOkP (get_by_split_range ctx (.LeftInf r)) = true := by
  rw [get_by_split_range]
  split_ifs with h1
  · exact gbs_inf_isOk ctx
  · rw [rustSlice_some (Nat.zero_le _) (by omega)]
    rfl

theorem gbs_rightInf_isOk (ctx : RegexContext) (l : Int)
    (h : ctx.translate_neg_index l ≤ ctx.groups.length + 1) :
    isOkP (get_by_split_range ctx (.RightInf l)) = true := by
  rw [get_by_split_range]
  split_ifs with h0
  · exact gbs_inf_isOk ctx
  · rw [rustSlice_some (by omega) (le_refl _)]
    rfl

theorem gbs_both_isOk (ctx : RegexContext) (l r : Int)
    (h : ctx.translate_neg_index l ≤ min (ctx.translate_neg_index r) ctx.groups.length + 1) :
    isOkP (get_by_split_range ctx (.Both l r)) = true := by
  rw [get_by_split_range]
  split_ifs with h0 h1 h2
  · exact gbs_leftInf_isOk ctx _
  · apply gbs_rightInf_isOk
    rw [translate_coe]
    omega
  · exact gbs_single_isOk ctx _
  · rw [rustSlice_some (by omega) (by omega)]
    rfl

theorem noPanic_gbs_isOk (ctx : RegexContext) (r : Range)
    (h : noPanicRange ctx r = true) : isOkP (get_by_split_range ctx r) = true := by
  cases r with
  | Single n => exact gbs_single_isOk ctx n
  | Both l r => exact gbs_both_isOk ctx l r (by simpa [noPanicRange] using h)
  | LeftInf r => exact gbs_leftInf_isOk ctx r
  | RightInf l => exact gbs_rightInf_isOk ctx l (by simpa [noPanicRange] using h)
  | Inf => exact gbs_inf_isOk ctx

/-! Someness lemmas: joined resolution of the non-`Single` shapes never
yields an absent value when it completes. -/

theorem gbr_inf_some (ctx : RegexContext) (sep : Option String) (v : Option String)
    (h : get_by_range ctx .Inf sep = .ok v) : v.isSome = true := by
  rw [get_by_range] at h
  simp only [Except.ok.injEq] at h
  exact h ▸ rfl

theorem gbr_leftInf_some (ctx : RegexContext) (r : Int) (sep : Option String)
    (v : Option String) (h : get_by_range ctx (.LeftInf r) sep = .ok v) :
    v.isSome = true := by
  rw [get_by_range] at h
  split_ifs at h with h1
  · exact gbr_inf_some ctx sep v h
  · rw [rustSlice_some (Nat.zero_le _) (by omega)] at h
    simp only [Except.ok.injEq] at h
    exact h ▸ rfl

theorem gbr_rightInf_some (ctx : RegexContext) (l : Int) (sep : Option String)
    (v : Option String) (h : get_by_range ctx (.RightInf l) sep = .ok v) :
    v.isSome = true := by
  rw [get_by_range] at h
  split_ifs at h with h0
  · exact gbr_inf_some ctx sep v h
  · rcases hs : rustSlice ctx.groups (ctx.translate_neg_index l - 1) ctx.groups.length
      with _ | xs
    · rw [hs] at h
      simp at h
    · rw [hs] at h
      simp only [Except.ok.injEq] at h
      exact h ▸ rfl

theorem gbr_single_some (ctx : RegexContext) (n : Int) (sep : Option String)
    (v : Option String) (h0 : ctx.translate_neg_index n ≠ 0)
    (h1 : ¬ ctx.translate_neg_index n > ctx.groups.length)
    (h : get_by_range ctx (.Single n) sep = .ok v) : v.isSome = true := by
  rw [get_by_range] at h
  rw [if_neg h0, if_neg h1] at h
  rcases hg : ctx.groups.get? (ctx.translate_neg_index n - 1) with _ | s
  · rw [List.get?_eq_none] at hg
    omega
  · rw [hg] at h
    simp only [Except.ok.injEq] at h
    exact h ▸ rfl

theorem gbr_both_some (ctx : RegexContext) (l r : Int) (sep : Option String)
    (v : Option String) (h : get_by_range ctx (.Both l r) sep = .ok v) :
    v.isSome = true := by
  rw [get_by_range] at h
  split_ifs at h with h0 h1 h2
  · exact gbr_leftInf_some ctx _ sep v h
  · exact gbr_rightInf_some ctx _ sep v h
  · refine gbr_single_some ctx _ sep v ?_ ?_ h
    · rw [translate_coe]
      exact h0
    · rw [translate_coe]
      omega
  · rcases hs : rustSlice ctx.groups (ctx.translate_neg_index l - 1)
        (ctx.translate_neg_index r) with _ | xs
    · rw [hs] at h
      simp at h
    · rw [hs] at h
      simp only [Except.ok.injEq] at h
      exact h ▸ rfl

theorem gbr_nonSingle_some (ctx : RegexContext) (r : Range) (sep : Option String)
    (v : Option String) (hr : Range.isSingle r = false)
    (h : get_by_range ctx r sep = .ok v) : v.isSome = true := by
  cases r with
  | Single n => simp [Range.isSingle] at hr
  | Both l r => exact gbr_both_some ctx l r sep v h
  | LeftInf r => exact gbr_leftInf_some ctx r sep v h
  | RightInf l => exact gbr_rightInf_some ctx l sep v h
  | Inf => exact gbr_inf_some ctx sep v h

theorem gbr_single_none_iff (ctx : RegexContext) (m : Int) (sep : Option String)
    (hw : (ctx.map "").isSome = true) :
    get_by_range ctx (.Single m) sep = .ok none ↔
      ctx.translate_neg_index m > ctx.groups.length := by
  rw [get_by_range]
  constructor
  · intro h
    by_contra hc
    by_cases h0 : ctx.translate_neg_index m = 0
    · rw [if_pos h0] at h
      simp only [Except.ok.injEq] at h
      rw [h] at hw
      simp at hw
    · rw [if_neg h0, if_neg hc] at h
      rcases hg : ctx.groups.get? (ctx.translate_neg_index m - 1) with _ | s
      · rw [List.get?_eq_none] at hg
        omega
      · rw [hg] at h
        simp at h
  · intro h
    rw [if_neg (by omega), if_pos h]

theorem rbrace_ne_lbrace : rbrace ≠ lbrace := by decide

theorem scanStep_cases (st : ScanState) (c : Char) :
    ((scanStep st c).parts = st.parts ∧ reconLit (scanStep st c) = c :: reconLit st) ∨
    ∃ tok lit, (scanStep st c).parts = Sum.inr tok :: Sum.inl lit :: st.parts := by
  by_cases h1 : c = lbrace
  · cases hb : st.buf with
    | none => left; constructor <;> simp [scanStep, reconLit, h1, hb]
    | some b => left; constructor <;> simp [scanStep, reconLit, h1, hb]
  · by_cases h2 : c = rbrace
    · cases hb : st.buf with
      | none =>
        left
        constructor <;> simp [scanStep, reconLit, h1, h2, hb, rbrace_ne_lbrace]
      | some b =>
        right
        refine ⟨String.mk (lbrace :: (b.reverse ++ [rbrace])),
          String.mk st.lit.reverse, ?_⟩
        simp [scanStep, h1, h2, hb, rbrace_ne_lbrace]
    · cases hb : st.buf with
      | none => left; constructor <;> simp [scanStep, reconLit, h1, h2, hb]
      | some b => left; constructor <;> simp [scanStep, reconLit, h1, h2, hb]

theorem scan_parts_suffix (cs : List Char) (st : ScanState) :
    ∃ pre, (cs.foldl scanStep st).parts = pre ++ st.parts := by
  induction cs generalizing st with
  | nil => exact ⟨[], rfl⟩
  | cons c cs ih =>
    rw [List.foldl_cons]
    rcases ih (scanStep st c) with ⟨pre, hp⟩
    rcases scanStep_cases st c with ⟨h, _⟩ | ⟨tok, lit, h⟩
    · exact ⟨pre, by rw [hp, h]⟩
    · exact ⟨pre ++ [Sum.inr tok, Sum.inl lit], by rw [hp, h]; simp⟩

theorem scan_all_literal (cs : List Char) (st : ScanState) :
    ((cs.foldl scanStep st).parts = st.parts ∧
      reconLit (cs.foldl scanStep st) = cs.reverse ++ reconLit st) ∨
    ∃ tok, Sum.inr tok ∈ (cs.foldl scanStep st).parts := by
  induction cs generalizing st with
  | nil => left; exact ⟨rfl, rfl⟩
  | cons c cs ih =>
    rw [List.foldl_cons]
    rcases scanStep_cases st c with ⟨hp, hr⟩ | ⟨tok, lit, hp⟩
    · rcases ih (scanStep st c) with ⟨hp2, hr2⟩ | ⟨tok, htok⟩
      · left
        refine ⟨by rw [hp2, hp], ?_⟩
        rw [hr2, hr]
        simp
      · right; exact ⟨tok, htok⟩
    · right
      rcases scan_parts_suffix cs (scanStep st c) with ⟨pre, hpre⟩
      exact ⟨tok, by rw [hpre, hp]; simp⟩

theorem scanParts_of_noTok {s : String} (h : hasFieldTok s = false) :
    scanParts s = [Sum.inl s] := by
  unfold hasFieldTok at h
  rcases scan_all_literal s.data ⟨[], [], none⟩ with ⟨hp, hr⟩ | ⟨tok, htok⟩
  · show (Sum.inl (String.mk
        (reconLit (List.foldl scanStep ⟨[], [], none⟩ s.data)).reverse) ::
        (List.foldl scanStep ⟨[], [], none⟩ s.data).parts).reverse = [Sum.inl s]
    rw [hp, hr]
    simp [reconLit]
  · exfalso
    rw [List.any_eq_false] at h
    have hmem : Sum.inr tok ∈ scanParts s := by
      show Sum.inr tok ∈ (Sum.inl (String.mk
        (reconLit (List.foldl scanStep ⟨[], [], none⟩ s.data)).reverse) ::
        (List.foldl scanStep ⟨[], [], none⟩ s.data).parts).reverse
      simp only [List.mem_reverse, List.mem_cons]
      exact Or.inr htok
    exact absurd (h _ hmem) (by simp)

theorem scan_brace_free (mid : List Char) (hm : ∀ c ∈ mid, c ≠ lbrace ∧ c ≠ rbrace) :
    ∀ (p : List (String ⊕ String)) (lit : List Char) (b : List Char),
    mid.foldl scanStep ⟨p, lit, some b⟩ = ⟨p, lit, some (mid.reverse ++ b)⟩ := by
  induction mid with
  | nil => intro p lit b; rfl
  | cons c mid ih =>
    intro p lit b
    rw [List.foldl_cons]
    have hc := hm c (List.mem_cons_self c mid)
    rw [show scanStep ⟨p, lit, some b⟩ c = ⟨p, lit, some (c :: b)⟩ from by
      simp [scanStep, hc.1, hc.2]]
    rw [ih (fun x hx => hm x (List.mem_cons_of_mem _ hx)) p lit (c :: b)]
    simp

theorem scanParts_token {tok : String} {mid : List Char}
    (htok : tok.data = lbrace :: (mid ++ [rbrace]))
    (hm : ∀ c ∈ mid, c ≠ lbrace ∧ c ≠ rbrace) :
    scanParts tok = [Sum.inl "", Sum.inr tok, Sum.inl ""] := by
  have hmk : String.mk (lbrace :: ((mid.reverse ++ []).reverse ++ [rbrace])) = tok := by
    simp only [List.append_nil, List.reverse_reverse]
    exact congrArg String.mk htok.symm
  have hstep : [rbrace].foldl scanStep ⟨[], [], some (mid.reverse ++ [])⟩ =
      ⟨[Sum.inr tok, Sum.inl ""], [], none⟩ := by
    rw [List.foldl_cons, List.foldl_nil]
    rw [show scanStep ⟨[], [], some (mid.reverse ++ [])⟩ rbrace =
        ⟨[Sum.inr (String.mk (lbrace :: ((mid.reverse ++ []).reverse ++ [rbrace]))),
          Sum.inl (String.mk List.nil.reverse)], [], none⟩ from by
      simp [scanStep, rbrace_ne_lbrace]]
    rw [hmk]
    rfl
  show (Sum.inl (String.mk
      (reconLit (List.foldl scanStep ⟨[], [], none⟩ tok.data)).reverse) ::
      (List.foldl scanStep ⟨[], [], none⟩ tok.data).parts).reverse =
    [Sum.inl "", Sum.inr tok, Sum.inl ""]
  rw [htok, List.foldl_cons]
  rw [show scanStep ⟨[], [], none⟩ lbrace = ⟨[], [], some []⟩ from by simp [scanStep]]
  rw [List.foldl_append, scan_brace_free mid hm, hstep]
  rfl

theorem fromStr_of_noTok {s : String} (h : hasFieldTok s = false) :
    ArgTemplate.fromStr s = .ok ⟨[.Literal s]⟩ := by
  unfold ArgTemplate.fromStr
  rw [scanParts_of_noTok h]
  rfl

theorem apply_literal (ctx : RegexContext) (s : String) (hs : s ≠ "") :
    ArgTemplate.apply_context ⟨[.Literal s]⟩ ctx = .ok [s] := by
  unfold ArgTemplate.apply_context
  rw [show group_combinations [ArgFragment.Literal s] = [Combination.Join [Join.Literal s]]
    from by simp [group_combinations, groupStep, hs]]
  simp [combine_with_context, resolveCombination, resolveJoinPart,
    List.mapM, List.mapM.loop, String.join]

theorem get_args_one (t : ArgTemplate) (sep line : String) (ms : List MatchData)
    (n : Int) (res : List String)
    (h : t.apply_context (lineContext line sep ms n) = .ok res) :
    get_args [t] sep line ms n = .ok res := by
  simp [get_args, List.mapM, List.mapM.loop, h]

theorem parseFrag_literal {tok : String} {mid : List Char}
    (htok : tok.data = lbrace :: (mid ++ [rbrace]))
    (hm : ∀ c ∈ mid, c ≠ lbrace ∧ c ≠ rbrace)
    (h1 : matchSingle mid = none) (h2 : matchNamed mid = none)
    (h3 : matchRange mid = none) (h4 : matchSplit mid = none) :
    ArgFragment.parseFrag tok = .ok (.Literal tok) := by
  have hmid : extractMid (lbrace :: (mid ++ [rbrace])) = some mid := by
    simp [extractMid, List.getLast?_concat, List.dropLast_concat]
    exact hm
  simp only [ArgFragment.parseFrag, htok, hmid, h1, h2, h3, h4]

theorem tok_ne_empty {tok : String} {mid : List Char}
    (htok : tok.data = lbrace :: (mid ++ [rbrace])) : tok ≠ "" := by
  intro h
  rw [h] at htok
  exact absurd htok (by simp)

theorem fromStr_token {tok : String} {mid : List Char}
    (htok : tok.data = lbrace :: (mid ++ [rbrace]))
    (hm : ∀ c ∈ mid, c ≠ lbrace ∧ c ≠ rbrace)
    (hpf : ArgFragment.parseFrag tok = .ok (.Literal tok)) :
    ArgTemplate.fromStr tok = .ok ⟨[.Literal "", .Literal tok, .Literal ""]⟩ := by
  unfold ArgTemplate.fromStr
  rw [scanParts_token htok hm]
  simp [List.mapM, List.mapM.loop, hpf]

theorem apply_token_literal (ctx : RegexContext) (tok : String) (hs : tok ≠ "") :
    ArgTemplate.apply_context ⟨[.Literal "", .Literal tok, .Literal ""]⟩ ctx = .ok [tok] := by
  unfold ArgTemplate.apply_context
  rw [show group_combinations [ArgFragment.Literal "", ArgFragment.Literal tok,
      ArgFragment.Literal ""] = [Combination.Join [Join.Literal tok, Join.Literal ""]]
    from by simp [group_combinations, groupStep, hs]]
  simp [combine_with_context, resolveCombination, resolveJoinPart,
    List.mapM, List.mapM.loop, String.join]
  rfl

/-- C7: resolving `FullyOpen` gives the same result as `RightOpen(1)` and
as `LeftOpen(-1)`, for joined and split resolution, over every context and
separator. -/
theorem c7_spec (ctx : RegexContext) (sep : Option String) :
    get_by_range ctx .Inf sep = get_by_range ctx (.RightInf 1) sep ∧
    get_by_range ctx .Inf sep = get_by_range ctx (.LeftInf (-1)) sep ∧
    get_by_split_range ctx .Inf = get_by_split_range ctx (.RightInf 1) ∧
    get_by_split_range ctx .Inf = get_by_split_range ctx (.LeftInf (-1)) := by
  have t1 : ctx.translate_neg_index 1 = 1 := by
    simp only [RegexContext.translate_neg_index]
    split <;> omega
  refine ⟨?_, ?_, ?_, ?_⟩
  · conv_rhs => rw [get_by_range]
    rw [t1, if_neg (by omega), show (1 : Nat) - 1 = 0 from rfl, rustSlice_full]
    rw [get_by_range]
  · conv_rhs => rw [get_by_range]
    rw [translate_neg_one, if_neg (by omega), rustSlice_full]
    rw [get_by_range]
  · conv_rhs => rw [get_by_split_range]
    rw [t1, if_neg (by omega), show (1 : Nat) - 1 = 0 from rfl, rustSlice_full]
    rw [get_by_split_range]
  · conv_rhs => rw [get_by_split_range]
    rw [translate_neg_one, if_neg (by omega), rustSlice_full]
    rw [get_by_split_range]

/-- C10: expansion is a pure function of the compiled templates, default
separator, line, captures and line number: equal inputs give equal
ordered argument lists on every invocation. -/
theorem c10_spec (args args2 : List ArgTemplate) (sep sep2 line line2 : String)
    (ms ms2 : List MatchData) (n n2 : Int)
    (h1 : args = args2) (h2 : sep = sep2) (h3 : line = line2) (h4 : ms = ms2)
    (h5 : n = n2) :
    get_args args sep line ms n = get_args args2 sep2 line2 ms2 n2 := by
  subst h1 h2 h3 h4 h5
  rfl

theorem c10_witness :
    get_args [⟨[.Literal "a"]⟩] " " "x" [] 1 = get_args [⟨[.Literal "a"]⟩] " " "x" [] 1 :=
  c10_spec _ _ _ _ _ _ _ _ _ _ rfl rfl rfl rfl rfl

/-- C6: the pseudo-fields LINENUM and LN resolve to the current line
number (start value plus zero-based input index), overriding any
same-named capture (the match list is arbitrary); with start value 5 the
third line yields 7, printed as the string 7. -/
theorem c6_spec (line default_sep : String) (ms : List MatchData) (s0 : Int) (k : Nat) :
    get_by_name (lineContext line default_sep ms (lineNumAt s0 k)) "LINENUM" =
      some (toString (lineNumAt s0 k)) ∧
    get_by_name (lineContext line default_sep ms (lineNumAt s0 k)) "LN" =
      some (toString (lineNumAt s0 k)) ∧
    lineNumAt 5 3 = 7 ∧
    toString (lineNumAt 5 3) = "7" := by
  refine ⟨?_, ?_, by decide, by decide⟩
  · simp [get_by_name, lineContext, RegexContext.put, RegexContext.with_default_sep, insertKV]
  · simp [get_by_name, lineContext, RegexContext.put, RegexContext.with_default_sep, insertKV]

/-- C5: the single template argument with the split field from 1 expands,
against the captures of the date pattern on the date line, to exactly the
three arguments 2018, 10, 21, in order. -/
theorem c5_spec :
    (ArgTemplate.fromStr "\x7b1...\x7d" >>= fun t =>
      get_args [t] " " "2018-10-21" c5matches 1) = .ok ["2018", "10", "21"] := by
  have h2 : get_by_split_range (lineContext "2018-10-21" " " c5matches 1) (.Both 1 (-1)) =
      .ok ["2018", "10", "21"] := by
    rw [get_by_split_range]
    rw [show (lineContext "2018-10-21" " " c5matches 1).translate_neg_index 1 = 1 from by decide,
        show (lineContext "2018-10-21" " " c5matches 1).translate_neg_index (-1) = 3 from by decide,
        show (lineContext "2018-10-21" " " c5matches 1).groups.length = 3 from rfl]
    norm_num [rustSlice]
    decide
  have h1 : ArgTemplate.fromStr "\x7b1...\x7d" =
      .ok ⟨[.Literal "", .SplitRangeGroup (.Both 1 (-1)), .Literal ""]⟩ := by decide
  rw [h1]
  show (get_args [⟨[.Literal "", .SplitRangeGroup (.Both 1 (-1)), .Literal ""]⟩]
      " " "2018-10-21" c5matches 1) = _
  rw [get_args]
  simp [ArgTemplate.apply_context, group_combinations, groupStep,
    combine_with_context, resolveCombination, List.mapM, List.mapM.loop, h2]

/-- C3 counterexample: the empty string is a template with no field
syntax, yet it expands to zero arguments, not one. -/
theorem c3_counterexample :
    ArgTemplate.fromStr "" = .ok ⟨[.Literal ""]⟩ ∧
    get_args [⟨[.Literal ""]⟩] " " "anything" [] 1 = .ok [] ∧
    (Except.ok ([] : List String) : PRes (List String)) ≠ .ok [""] := by
  refine ⟨by decide, by decide, by decide⟩

/-- C3 (amended): a template with no field token and nonempty text
compiles to a single literal fragment and expands to exactly one
argument, the literal text, for every line, captures and line number;
the empty template instead expands to zero arguments. -/
theorem c3_amended (s line default_sep : String) (ms : List MatchData) (n : Int)
    (h : hasFieldTok s = false) (hs : s ≠ "") :
    ArgTemplate.fromStr s = .ok ⟨[.Literal s]⟩ ∧
    get_args [⟨[.Literal s]⟩] default_sep line ms n = .ok [s] :=
  ⟨fromStr_of_noTok h,
   get_args_one _ _ _ _ _ _ (apply_literal (lineContext line default_sep ms n) s hs)⟩

theorem c3_witness :
    ArgTemplate.fromStr "plain" = .ok ⟨[.Literal "plain"]⟩ ∧
    get_args [⟨[.Literal "plain"]⟩] " " "x" [] 1 = .ok ["plain"] :=
  c3_amended "plain" "x" " " [] 1 (by decide) (by decide)

/-- C8: a brace token whose interior matches none of the four field
syntaxes (bare integer, bare identifier, two-dot range, three-dot split
range — stated through the interior matchers, which model the engine's
ASCII semantics) is not an error: it stays a literal fragment with its
braces and appears unchanged in the expanded output argument. -/
theorem c8_spec (tok : String) (mid : List Char) (line default_sep : String)
    (ms : List MatchData) (n : Int)
    (htok : tok.data = lbrace :: (mid ++ [rbrace]))
    (hm : ∀ c ∈ mid, c ≠ lbrace ∧ c ≠ rbrace)
    (h1 : matchSingle mid = none) (h2 : matchNamed mid = none)
    (h3 : matchRange mid = none) (h4 : matchSplit mid = none) :
    ArgFragment.parseFrag tok = .ok (.Literal tok) ∧
    ArgTemplate.fromStr tok = .ok ⟨[.Literal "", .Literal tok, .Literal ""]⟩ ∧
    get_args [⟨[.Literal "", .Literal tok, .Literal ""]⟩] default_sep line ms n =
      .ok [tok] := by
  have hpf := parseFrag_literal htok hm h1 h2 h3 h4
  exact ⟨hpf, fromStr_token htok hm hpf,
    get_args_one _ _ _ _ _ _
      (apply_token_literal (lineContext line default_sep ms n) tok (tok_ne_empty htok))⟩

theorem c8_witness :
    ArgFragment.parseFrag "\x7babc-\x7d" = .ok (.Literal "\x7babc-\x7d") ∧
    ArgTemplate.fromStr "\x7babc-\x7d" =
      .ok ⟨[.Literal "", .Literal "\x7babc-\x7d", .Literal ""]⟩ ∧
    get_args [⟨[.Literal "", .Literal "\x7babc-\x7d", .Literal ""]⟩] " " "x" [] 1 =
      .ok ["\x7babc-\x7d"] :=
  c8_spec "\x7babc-\x7d" ['a', 'b', 'c', '-'] "x" " " [] 1 (by decide) (by decide)
    (by decide) (by decide) (by decide) (by decide)

/-- C2 counterexample: over a context with no captured groups on the line
`x`, split resolution of `Both 0 0` gives no entries while `Single 0`
gives the whole line, so `Bounded(l, l)` is not always `Single(l)`. -/
theorem c2_counterexample :
    get_by_split_range c2ctx (.Both 0 0) = .ok [] ∧
    get_by_split_range c2ctx (.Single 0) = .ok ["x"] ∧
    (Except.ok ([] : List String) : PRes (List String)) ≠ .ok ["x"] := by
  refine ⟨?_, ?_, by decide⟩
  · rw [get_by_split_range]
    rw [show c2ctx.translate_neg_index 0 = 0 from by decide]
    norm_num
    rw [get_by_split_range]
    rw [show c2ctx.translate_neg_index 0 = 0 from by decide,
        show c2ctx.groups.length = 0 from rfl]
    norm_num [rustSlice]
  · rw [get_by_split_range]
    rw [show c2ctx.translate_neg_index 0 = 0 from by decide]
    norm_num
    decide

/-- C2 (amended): `Bounded(l, l)` resolves exactly like `Single(l)`, for
joined and split resolution, whenever the translated index is between 1
and the group count; at translated index 0 (whole line) or beyond the
group count the two shapes differ. -/
theorem c2_amended (ctx : RegexContext) (l : Int) (sep : Option String)
    (h1 : 1 ≤ ctx.translate_neg_index l)
    (h2 : ctx.translate_neg_index l ≤ ctx.groups.length) :
    get_by_range ctx (.Both l l) sep = get_by_range ctx (.Single l) sep ∧
    get_by_split_range ctx (.Both l l) = get_by_split_range ctx (.Single l) := by
  have hc : ctx.translate_neg_index ((ctx.translate_neg_index l : Nat) : Int) =
      ctx.translate_neg_index l := translate_coe ctx _
  constructor
  · conv_lhs => rw [get_by_range]
    rw [if_neg (by omega), if_neg (by omega), if_pos rfl]
    rw [get_by_range, get_by_range, hc]
  · conv_lhs => rw [get_by_split_range]
    rw [if_neg (by omega), if_neg (by omega), if_pos rfl]
    rw [get_by_split_range, get_by_split_range, hc]

theorem c2_witness :
    (get_by_range c2wctx (.Both 2 2) none = get_by_range c2wctx (.Single 2) none) ∧
    (get_by_split_range c2wctx (.Both 2 2) = get_by_split_range c2wctx (.Single 2)) :=
  c2_amended c2wctx 2 none (by decide) (by decide)

/-- C1 counterexample: resolution panics (aborts) on a range whose
translated left bound exceeds the translated right bound by more than
one: `Both 3 1` over a context with three captured groups. -/
theorem c1_counterexample : get_by_range c1ctx (.Both 3 1) none = .error () := by
  rw [get_by_range]
  rw [show c1ctx.translate_neg_index 3 = 3 from by decide,
      show c1ctx.translate_neg_index 1 = 1 from by decide,
      show c1ctx.groups.length = 3 from rfl]
  norm_num [rustSlice]

/-- C1 (amended): an unresolvable named reference contributes nothing to
a join, an unresolvable ranged reference contributes nothing to a join
and no entries to a split, and resolution completes for every range
satisfying the no-panic bound (Bounded: translated left at most
`min(translated right, group count) + 1`; RightOpen: translated left at
most `group count + 1`; all other shapes unconditionally); outside that
bound the slice indexing panics. -/
theorem c1_amended (ctx : RegexContext) (r : Range) (sep : Option String) :
    (noPanicRange ctx r = true → isOkP (get_by_range ctx r sep) = true) ∧
    (noPanicRange ctx r = true → isOkP (get_by_split_range ctx r) = true) ∧
    (∀ name, get_by_name ctx name = none →
      resolveJoinPart ctx (.NamedGroup name) = .ok []) ∧
    (get_by_range ctx r sep = .ok none → resolveJoinPart ctx (.RangeGroup r sep) = .ok []) ∧
    (∀ m : Int, ctx.translate_neg_index m > ctx.groups.length →
      get_by_split_range ctx (.Single m) = .ok []) := by
  refine ⟨noPanic_gbr_isOk ctx r sep, fun h => noPanic_gbs_isOk ctx r h, ?_, ?_, ?_⟩
  · intro name hn
    simp [resolveJoinPart, hn]
  · intro h
    simp [resolveJoinPart, h, Except.map]
  · intro m hm2
    rw [get_by_split_range]
    rw [if_neg (by omega), if_pos hm2]

theorem c1_witness :
    isOkP (get_by_range c1wctx (.Single 5) none) = true ∧
    isOkP (get_by_split_range c1wctx (.Single 5)) = true ∧
    resolveJoinPart c1wctx (.NamedGroup "nosuch") = .ok [] ∧
    resolveJoinPart c1wctx (.RangeGroup (.Single 5) none) = .ok [] ∧
    get_by_split_range c1wctx (.Single 5) = .ok [] := by
  obtain ⟨a, b, c, d, e⟩ := c1_amended c1wctx (.Single 5) none
  refine ⟨a (by decide), b (by decide), c "nosuch" (by decide), d ?_, e 5 (by decide)⟩
  rw [get_by_range]
  rw [show c1wctx.translate_neg_index 5 = 5 from by decide,
      show c1wctx.groups.length = 0 from rfl]
  norm_num

/-- C4: in a built context, name lookup returns the value of the last
(rightmost) write of that name across all matches, while positional
addressing uses the single flat ordered capture sequence of all matches,
1-based (index i reads slot i-1 of that sequence). -/
theorem c4_spec (line : String) (ms : List MatchData) (k : String) (i : Nat) (s : String)
    (hk1 : k ≠ "") (hk2 : k ≠ "0") (hi : 1 ≤ i)
    (hs : (allCaptures ms).get? (i - 1) = some s) :
    get_by_name (buildContext line ms) k = lastAssoc k (namedWrites ms) ∧
    (buildContext line ms).groups = allCaptures ms ∧
    get_by_range (buildContext line ms) (.Single (i : Int)) none = .ok (some s) := by
  refine ⟨?_, buildContext_groups line ms, ?_⟩
  · show (buildContext line ms).map k = _
    rw [buildContext_map, initMap_other hk1 hk2, orDefault_none]
  · have hlen : i - 1 < (allCaptures ms).length := by
      by_contra hc
      rw [List.get?_eq_none.mpr (by omega)] at hs
      exact absurd hs (by simp)
    have hlen2 : i - 1 < (buildContext line ms).groups.length := by
      rw [buildContext_groups]
      exact hlen
    rw [get_by_range, translate_coe]
    rw [if_neg (by omega), if_neg (by omega)]
    rw [show (buildContext line ms).groups.get? (i - 1) = some s from by
      rw [buildContext_groups]; exact hs]

theorem c4_witness :
    get_by_name (buildContext "x" c4ms) "g" = lastAssoc "g" (namedWrites c4ms) ∧
    (buildContext "x" c4ms).groups = allCaptures c4ms ∧
    get_by_range (buildContext "x" c4ms) (.Single ((1 : Nat) : Int)) none =
      .ok (some "a") :=
  c4_spec "x" c4ms "g" 1 "a" (by decide) (by decide) (by decide) (by decide)

/-- C9: the whole-line entries under the empty name and the name 0 always
exist in a line context (named captures cannot use those keys); joined
resolution of any non-Single shape yields a present value whenever it
completes; and a Single reference is absent exactly when its translated
index exceeds the group count. -/
theorem c9_spec (line default_sep : String) (ms : List MatchData) (n : Int)
    (hvalid : ∀ md ∈ ms, ∀ kv ∈ md.named, kv.1 ≠ "" ∧ kv.1 ≠ "0") :
    (lineContext line default_sep ms n).map "" = some line ∧
    (lineContext line default_sep ms n).map "0" = some line ∧
    (∀ (ctx : RegexContext) (r : Range) (sep : Option String) (v : Option String),
      Range.isSingle r = false → get_by_range ctx r sep = .ok v → v.isSome = true) ∧
    (∀ (m : Int) (sep : Option String),
      get_by_range (lineContext line default_sep ms n) (.Single m) sep = .ok none ↔
        (lineContext line default_sep ms n).translate_neg_index m >
          (lineContext line default_sep ms n).groups.length) := by
  have hNW : ∀ kv ∈ namedWrites ms, kv.1 ≠ "" ∧ kv.1 ≠ "0" := by
    intro kv hkv
    rw [namedWrites, List.mem_flatten] at hkv
    obtain ⟨l, hl, hkvl⟩ := hkv
    rw [List.mem_map] at hl
    obtain ⟨md, hmd, rfl⟩ := hl
    exact hvalid md hmd kv hkvl
  have hmape : (lineContext line default_sep ms n).map "" = some line := by
    show insertKV (insertKV (buildContext line ms).map "LINENUM" (toString n)) "LN"
      (toString n) "" = some line
    simp [insertKV]
    rw [buildContext_map, lastAssoc_none (fun kv hkv => (hNW kv hkv).1)]
    rfl
  have hmap0 : (lineContext line default_sep ms n).map "0" = some line := by
    show insertKV (insertKV (buildContext line ms).map "LINENUM" (toString n)) "LN"
      (toString n) "0" = some line
    simp [insertKV]
    rw [buildContext_map, lastAssoc_none (fun kv hkv => (hNW kv hkv).2)]
    rfl
  refine ⟨hmape, hmap0, fun ctx r sep v hr h => gbr_nonSingle_some ctx r sep v hr h, ?_⟩
  intro m sep
  exact gbr_single_none_iff _ m sep (by rw [hmape]; rfl)

theorem c9_witness :
    (lineContext "x" " " [] 1).map "" = some "x" ∧
    (lineContext "x" " " [] 1).map "0" = some "x" ∧
    (some "" : Option String).isSome = true ∧
    (get_by_range (lineContext "x" " " [] 1) (.Single 5) none = .ok none ↔
      (lineContext "x" " " [] 1).translate_neg_index 5 >
        (lineContext "x" " " [] 1).groups.length) := by
  obtain ⟨a, b, c, d⟩ := c9_spec "x" " " [] 1 (by simp)
  refine ⟨a, b, ?_, d 5 none⟩
  refine c (lineContext "x" " " [] 1) .Inf none (some "") (by decide) ?_
  rw [get_by_range]
  rfl

end Rargs
